import Mathlib

/-
Verification of the directive scanner and code renderer of cmd/code2slides
(main.go).  Strings are modelled as lists of characters; every Go string
helper used by the source (strings.TrimSpace, TrimPrefix, Index, Fields,
Split, ReplaceAll, html.EscapeString, ...) is translated to an executable
Lean function with the same behaviour on the ASCII inputs the tool
processes.  The scanner state machine of scanFile, the renderer
renderCode / renderCodeLine and the helper splitFirstWord are translated
line by line from the source.  The Go regexp package (an external
collaborator from the standard library, not part of this repository) is
modelled as an abstract engine parameter; a literal-pattern instance is
provided for concrete runs.
-/

namespace Code2Slides

/-- Character lists standing for Go strings. -/
abbrev Str := List Char

/-- Shorthand to write character-list constants from Lean string literals. -/
def str (s : String) : Str := s.toList

/-- ASCII whitespace, agreeing with Go unicode.IsSpace on ASCII input. -/
def isSpaceChar (c : Char) : Bool :=
  c = ' ' || c = '\t' || c = '\n' || c = (Char.ofNat 11) || c = (Char.ofNat 12) || c = '\r'

/-- The cutset " \t" used by strings.TrimLeft / TrimRight in the source. -/
def isSpaceTab (c : Char) : Bool := c = ' ' || c = '\t'

/-- Drop characters satisfying p from the end of a list. -/
def trimRightIf (p : Char → Bool) (s : Str) : Str := (s.reverse.dropWhile p).reverse

/-- Go strings.TrimSpace (ASCII). -/
def trimSpace (s : Str) : Str := trimRightIf isSpaceChar (s.dropWhile isSpaceChar)

/-- Go strings.TrimLeft(s, " \t"). -/
def trimLeftCutset (s : Str) : Str := s.dropWhile isSpaceTab

/-- Go strings.TrimRight(s, " \t"). -/
def trimRightCutset (s : Str) : Str := trimRightIf isSpaceTab s

/-- Go strings.TrimPrefix. -/
def trimPrefixStr (s pre : Str) : Str :=
  if pre.isPrefixOf s then s.drop pre.length else s

/-- Go strings.TrimSuffix. -/
def trimSuffixStr (s suf : Str) : Str :=
  if suf.reverse.isPrefixOf s.reverse then s.take (s.length - suf.length) else s

/-- Index of the first space or tab, as in strings.IndexAny(s, " \t"). -/
def indexAnySpaceTab : Str → Option Nat
  | [] => none
  | c :: cs =>
    if isSpaceTab c then some 0
    else (indexAnySpaceTab cs).map (· + 1)

/-- Go strings.Index: position of the first occurrence of pat in s
(some 0 for an empty pattern, as in Go). -/
def indexOfStr : Str → Str → Option Nat
  | s, pat =>
    if pat.isPrefixOf s then some 0
    else
      match s with
      | [] => none
      | _ :: cs => (indexOfStr cs pat).map (· + 1)

/-- Whether pat occurs as a contiguous substring of s. -/
def containsStr (s pat : Str) : Bool := (indexOfStr s pat).isSome

/-- Go strings.Cut(s, "."): split at the first dot. -/
def cutDot (s : Str) : Option (Str × Str) :=
  (indexOfStr s (str ".")).map (fun i => (s.take i, s.drop (i + 1)))

/-- Go strings.Fields, inner loop carrying the current word reversed. -/
def fieldsGo (cur : Str) : Str → List Str
  | [] => if cur = [] then [] else [cur.reverse]
  | c :: cs =>
    if isSpaceChar c then
      if cur = [] then fieldsGo [] cs else cur.reverse :: fieldsGo [] cs
    else fieldsGo (c :: cur) cs

/-- Go strings.Fields (ASCII whitespace). -/
def fields (s : Str) : List Str := fieldsGo [] s

/-- Go strings.Split(s, sep) for a single-character separator. -/
def splitOnChar (sep : Char) : Str → List Str
  | [] => [[]]
  | c :: cs =>
    if c = sep then [] :: splitOnChar sep cs
    else
      match splitOnChar sep cs with
      | [] => [[c]]
      | t :: ts => (c :: t) :: ts

/-- Go strings.ReplaceAll for a non-empty pattern, with fuel for structural
recursion (fuel = length of s suffices since each step consumes a character). -/
def replaceAllGo : Nat → Str → Str → Str → Str
  | 0, s, _, _ => s
  | fuel + 1, s, pat, rep =>
    match s with
    | [] => []
    | c :: cs =>
      if pat.isPrefixOf s ∧ pat ≠ [] then rep ++ replaceAllGo fuel (s.drop pat.length) pat rep
      else c :: replaceAllGo fuel cs pat rep

/-- Go strings.ReplaceAll (non-empty patterns; the source only replaces
the tab character and the two em markers, all non-empty). -/
def replaceAll (s pat rep : Str) : Str := replaceAllGo s.length s pat rep

/-- Go html.EscapeString on one character. -/
def escChar (c : Char) : Str :=
  if c = '&' then str "&amp;"
  else if c = '\x27' then str "&#39;"
  else if c = '<' then str "&lt;"
  else if c = '>' then str "&gt;"
  else if c = '"' then str "&#34;"
  else [c]

/-- Go html.EscapeString. -/
def htmlEscape (s : Str) : Str := s.flatMap escChar

/-- Go %q on the class names and patterns the tool quotes; faithful for
names without characters that Go would backslash-escape. -/
def quoteStr (s : Str) : Str := str "\"" ++ s ++ str "\""

/-- Go filepath.Base for ordinary file names. -/
def baseName (p : Str) : Str :=
  if p = [] then str "."
  else
    let q := trimRightIf (· = '/') p
    if q = [] then str "/"
    else (q.reverse.takeWhile (· ≠ '/')).reverse

/-- splitFirstWord from main.go: recognize a comment line and split it
into the first word and the rest. -/
def splitFirstWord (line : Str) : Str × Str × Bool :=
  let s := trimSpace line
  if ¬ (str "//").isPrefixOf s ∧ ¬ (str "/*").isPrefixOf s then ([], [], false)
  else
    let s := trimSpace (s.drop 2)
    match indexAnySpaceTab s with
    | none => (s, [], true)
    | some i => (s.take i, trimSpace (s.drop (i + 1)), true)

/-- sectionKind from main.go (sectionUndefined means no open section). -/
inductive SectionKind where
  | undefined
  | note
  | code
  | codeBad
  | question
  | answer
  | text
  | html
  | output
deriving DecidableEq, Repr

/-- The String method of sectionKind. -/
def kindString : SectionKind → Str
  | .note => str "note"
  | .code => str "code"
  | .codeBad => str "code bad"
  | .question => str "question"
  | .answer => str "answer"
  | .text => str "text"
  | .html => str "html"
  | .output => str "output"
  | .undefined => str "unknown"

/-- The simpleKinds map from main.go. -/
def simpleKinds (w : Str) : Option SectionKind :=
  if w = str "note" then some .note
  else if w = str "code" then some .code
  else if w = str "output" then some .output
  else if w = str "question" then some .question
  else none

/-- section from main.go. -/
structure Sect where
  kind : SectionKind
  content : Str
deriving DecidableEq, Repr

/-- Slide from main.go. -/
structure Slide where
  heading : Str
  problem : Bool
  sections : List Sect
deriving DecidableEq, Repr

/-- The local scanner state of scanFile: the slide under construction, the
finished slides, the accumulation buffer `current`, the open-section kind
and the active div class ([] standing for Go's empty string). -/
structure ScanState where
  slide : Slide
  slides : List Slide
  current : Str
  kind : SectionKind
  divClass : Str
deriving DecidableEq, Repr

/-- A compiled regular expression of the external Go regexp collaborator:
all the scanner uses is ReplaceAllStringFunc. -/
structure GoRegexp where
  replaceAllFunc : Str → (Str → Str) → Str

/-- The external regexp collaborator: compiling a pattern either fails with
a message or yields a compiled expression. -/
structure EmEngine where
  compile : Str → Except Str GoRegexp

/-- The zero-width emphasis-open marker written into the buffer. -/
def emOpenMark : Str := str "\x00em\x00"

/-- The zero-width emphasis-close marker written into the buffer. -/
def emCloseMark : Str := str "\x00/em\x00"

/-- The add closure of scanFile: append a section to the current slide. -/
def addSection (st : ScanState) (k : SectionKind) (c : Str) : ScanState :=
  { st with slide := { st.slide with sections := st.slide.sections ++ [⟨k, c⟩] } }

/-- The addCurrent closure of scanFile: flush the buffer as a section of
kind k only when the buffer is non-empty. -/
def addCurrent (st : ScanState) (k : SectionKind) : ScanState :=
  if st.current.length > 0 then { addSection st k st.current with current := [] }
  else st

/-- The matchFirst = false tail of the scanner loop: the "*/" special case,
code-block body handling (em markers, inline em regexp, verbatim lines),
comment-stripped body lines for the other open kinds, and silently ignored
lines while idle. -/
def bodyLine (engine : EmEngine) (st : ScanState) (line : Str) : Except Str ScanState :=
  if line = str "*/" ∧ st.kind = .text then
    .ok { addCurrent st .text with kind := .undefined }
  else if st.kind = .code ∨ st.kind = .codeBad then
    let trimmed := trimLeftCutset line
    if trimmed = str "// em" then
      .ok { st with current := st.current ++ emOpenMark }
    else if trimmed = str "// !em" then
      .ok { st with current := trimSuffixStr st.current (str "\n") ++ emCloseMark ++ str "\n" }
    else
      match indexOfStr line (str "// em ") with
      | some idx =>
        let pattern := trimSpace (line.drop (idx + 6))
        if pattern ≠ [] then
          match engine.compile pattern with
          | .error e => .error (str "invalid em regexp " ++ quoteStr pattern ++ str ": " ++ e)
          | .ok re =>
            let codePart := trimRightCutset (line.take idx)
            .ok { st with current :=
              st.current ++ re.replaceAllFunc codePart (fun m => emOpenMark ++ m ++ emCloseMark) ++ str "\n" }
        else .ok { st with current := st.current ++ line ++ str "\n" }
      | none => .ok { st with current := st.current ++ line ++ str "\n" }
  else if st.kind ≠ .undefined then
    .ok { st with current := st.current ++ trimSpace (trimPrefixStr line (str "//")) ++ str "\n" }
  else .ok st

/-- The div.CLASS / !div.CLASS handling performed when no keyword matched. -/
def divLine (engine : EmEngine) (st : ScanState) (first line : Str) : Except Str ScanState :=
  match cutDot first with
  | some (d, c) =>
    if d = str "div" then
      .ok { addSection st .html (str "<div class=" ++ quoteStr c ++ str ">") with divClass := c }
    else if d = str "!div" then
      if c ≠ st.divClass then
        .error (str "mismatched div class: start " ++ quoteStr st.divClass ++ str ", end " ++ quoteStr c)
      else .ok { addSection st .html (str "</div> <!-- " ++ c ++ str " -->") with divClass := [] }
    else bodyLine engine st line
  | none => bodyLine engine st line

/-- The keyword dispatch of the scanner loop body, with first and rest
already split off the line. -/
def dispatch (engine : EmEngine) (st : ScanState) (first rest line : Str) :
    Except Str ScanState :=
  if first = str "code" ∧ rest = str "bad" then
    if st.kind ≠ .undefined then .error (str "code bad inside " ++ kindString st.kind)
    else .ok { st with kind := .codeBad }
  else
    match simpleKinds first with
    | some sec =>
      if st.kind ≠ .undefined then
        .error (kindString sec ++ str " inside " ++ kindString st.kind)
      else .ok { st with kind := sec }
    | none =>
      if first = str "heading" then
        if rest = [] then .error (str "missing heading")
        else
          let st' := if st.slide.sections.length > 0 then
              { st with slides := st.slides ++ [st.slide], slide := ⟨[], false, []⟩ }
            else st
          .ok { st' with slide := { st'.slide with heading := rest } }
      else if first = str "problem" then
        .error (str "\x27problem\x27 temporarily not supported")
      else if first = str "text" then
        if st.kind ≠ .undefined then .error (str "text inside " ++ kindString st.kind)
        else if rest ≠ [] then .ok (addSection st .text (rest ++ str "\n"))
        else .ok { st with kind := .text }
      else if first = str "html" then
        .ok (addSection st .html rest)
      else if first = str "!code" then
        if st.kind ≠ .code ∧ st.kind ≠ .codeBad then .error (str "!code without matching code")
        else .ok { addSection st st.kind (trimSuffixStr st.current (str "\n")) with
                   current := [], kind := .undefined }
      else if first = str "!note" then
        if st.kind ≠ .note then .error (str "!note without matching note")
        else .ok { addCurrent st .note with kind := .undefined }
      else if first = str "!text" then
        if st.kind ≠ .text then .error (str "!text without matching text")
        else .ok { addCurrent st .text with kind := .undefined }
      else if first = str "!output" then
        if st.kind ≠ .output then .error (str "output inside " ++ kindString st.kind)
        else .ok { addCurrent st .output with kind := .undefined }
      else if first = str "answer" then
        if st.kind ≠ .question then .error (str "answer without matching question")
        else .ok { addCurrent st .question with kind := .answer }
      else if first = str "!question" then
        if st.kind ≠ .question ∧ st.kind ≠ .answer then
          .error (str "!question without matching question")
        else if st.kind = .question then .error (str "!question without answer")
        else .ok { addCurrent st .answer with kind := .undefined }
      else divLine engine st first line

/-- One iteration of the scanner loop of scanFile. -/
def scanStep (engine : EmEngine) (st : ScanState) (line : Str) : Except Str ScanState :=
  dispatch engine st (splitFirstWord line).1 (splitFirstWord line).2.1 line

/-- A scan failure: file name, 1-based line number and message, as
assembled by the deferred error wrapper of scanFile. -/
structure ScanError where
  filename : Str
  line : Nat
  msg : Str
deriving DecidableEq, Repr

/-- The scanner loop: n counts the lines already consumed, so an error on
the next line carries number n + 1 exactly as lineNum does in the source. -/
def scanLines (engine : EmEngine) : List Str → Nat → ScanState → Except (Nat × Str) ScanState
  | [], _, st => .ok st
  | l :: ls, n, st =>
    match scanStep engine st l with
    | .error m => .error (n + 1, m)
    | .ok st' => scanLines engine ls (n + 1) st'

/-- The end-of-input checks of scanFile and the final append of the
in-progress slide. -/
def finishScan (st : ScanState) (numLines : Nat) : Except (Nat × Str) (List Slide) :=
  if st.kind ≠ .undefined then
    .error (numLines, str "unclosed " ++ kindString st.kind ++ str " section")
  else if st.divClass ≠ [] then
    .error (numLines, str "unclosed div with class " ++ quoteStr st.divClass)
  else .ok (st.slides ++ [st.slide])

/-- The initial scanner state: the first slide's heading defaults to the
base name of the input file. -/
def initState (filename : Str) : ScanState :=
  ⟨⟨baseName filename, false, []⟩, [], [], .undefined, []⟩

/-- scanFile from main.go, over an already-split list of input lines. -/
def scanFile (engine : EmEngine) (filename : Str) (lines : List Str) :
    Except ScanError (List Slide) :=
  match scanLines engine lines 0 (initState filename) with
  | .error e => .error ⟨filename, e.1, e.2⟩
  | .ok st =>
    match finishScan st lines.length with
    | .error e => .error ⟨filename, e.1, e.2⟩
    | .ok slides => .ok slides

/-- Go strings.ReplaceAll(s, "\t", "    ") from the head of renderCode. -/
def replaceTab (s : Str) : Str := s.flatMap (fun c => if c = '\t' then str "    " else [c])

/-- The prefix-stripping loop of renderCode: peel any run of em markers off
the front of a line, returning the markers and the remaining content.
Fuel-based (each step consumes at least four characters). -/
def stripEmPrefixGo : Nat → Str → Str × Str
  | 0, s => ([], s)
  | fuel + 1, s =>
    if emOpenMark.isPrefixOf s then
      let r := stripEmPrefixGo fuel (s.drop 4)
      (emOpenMark ++ r.1, r.2)
    else if emCloseMark.isPrefixOf s then
      let r := stripEmPrefixGo fuel (s.drop 5)
      (emCloseMark ++ r.1, r.2)
    else ([], s)

/-- Marker prefix and content of a line, as computed twice inside renderCode. -/
def stripEmPrefix (s : Str) : Str × Str := stripEmPrefixGo s.length s

/-- Regexp [a-zA-Z_][a-zA-Z0-9_]* start character. -/
def isIdentStart (c : Char) : Bool := c.isAlpha || c = '_'

/-- Regexp [a-zA-Z_][a-zA-Z0-9_]* continuation character. -/
def isIdentChar (c : Char) : Bool := c.isAlphanum || c = '_'

/-- The replacement function of stripUnderscoreSuffixes: cut an identifier
at its first underscore when that underscore is not the leading character. -/
def stripIdent (m : Str) : Str :=
  match indexOfStr m (str "_") with
  | some i => if i > 0 then m.take i else m
  | none => m

/-- stripUnderscoreSuffixes from main.go: apply stripIdent to every maximal
identifier run, as identRe.ReplaceAllStringFunc does.  Fuel-based (each
step consumes at least one character). -/
def stripUSGo : Nat → Str → Str
  | 0, s => s
  | _ + 1, [] => []
  | fuel + 1, c :: cs =>
    if isIdentStart c then
      stripIdent (c :: cs.takeWhile isIdentChar) ++ stripUSGo fuel (cs.dropWhile isIdentChar)
    else c :: stripUSGo fuel cs

/-- stripUnderscoreSuffixes from main.go. -/
def stripUnderscoreSuffixes (s : Str) : Str := stripUSGo s.length s

/-- Leading-space count of a line's content, as computed inside renderCode
after tabs have been replaced. -/
def lineIndent (l : Str) : Nat := ((stripEmPrefix l).2.takeWhile (· = ' ')).length

/-- The minimum-indentation scan of renderCode; none plays the role of the
initial -1. -/
def minIndentOf (lines : List Str) : Option Nat :=
  lines.foldl
    (fun acc l =>
      if trimSpace (stripEmPrefix l).2 = [] then acc
      else
        match acc with
        | none => some (lineIndent l)
        | some m => some (min m (lineIndent l)))
    none

/-- The common-indentation removal of renderCode applied to one line. -/
def stripIndentLine (m : Nat) (l : Str) : Str :=
  let p := stripEmPrefix l
  if m ≤ p.2.length then p.1 ++ p.2.drop m else l

/-- The single em-marker prefix split at the head of renderCodeLine (the
source checks one marker only here, not a loop). -/
def emPrefixSplit (l : Str) : Str × Str :=
  if emOpenMark.isPrefixOf l then (emOpenMark, l.drop 4)
  else if emCloseMark.isPrefixOf l then (emCloseMark, l.drop 5)
  else ([], l)

/-- The func/method half of renderCodeLine: given the text after "func ",
produce the rendered remainder, or none when the heuristics do not fire
and the line is escaped unchanged. -/
def renderFuncPart (rest : Str) : Option Str :=
  if (str "(").isPrefixOf rest then
    match indexOfStr rest (str ") ") with
    | some idx =>
      let receiver := rest.take (idx + 1)
      let afterReceiver := rest.drop (idx + 2)
      match indexOfStr afterReceiver (str "(") with
      | some p =>
        some (htmlEscape (receiver ++ str " ") ++ str "<defn>" ++
          htmlEscape (afterReceiver.take p) ++ str "</defn>" ++ htmlEscape (afterReceiver.drop p))
      | none => none
    | none => none
  else
    match indexOfStr rest (str "(") with
    | some p =>
      some (str "<defn>" ++ htmlEscape (rest.take p) ++ str "</defn>" ++ htmlEscape (rest.drop p))
    | none => none

/-- renderCodeLine from main.go: definition highlighting for type, func and
method declarations, with HTML escaping of all literal text. -/
def renderCodeLine (line0 : Str) : Str :=
  let pr := emPrefixSplit line0
  let pfx := pr.1
  let line := pr.2
  let trimmed := trimLeftCutset line
  let indent := line.take (line.length - trimmed.length)
  if (str "type ").isPrefixOf trimmed ∧ fields (trimmed.drop 5) ≠ [] then
    let name := trimmed.drop 5
    let typeName := (fields name).headI
    pfx ++ htmlEscape indent ++ str "type <defn>" ++ htmlEscape typeName ++ str "</defn>" ++
      htmlEscape (trimPrefixStr name typeName)
  else if (str "func ").isPrefixOf trimmed then
    match renderFuncPart (trimmed.drop 5) with
    | some r => pfx ++ htmlEscape indent ++ str "func " ++ r
    | none => pfx ++ htmlEscape line
  else pfx ++ htmlEscape line

/-- One line of the output loop of renderCode: strip underscore suffixes,
split off a trailing comment, render the code part through renderCodeLine
and the comment part in a comment span. -/
def renderFullLine (l : Str) : Str :=
  let l := stripUnderscoreSuffixes l
  match indexOfStr l (str "//") with
  | some idx =>
    renderCodeLine (l.take idx) ++ str "<comment>" ++ htmlEscape (l.drop idx) ++ str "</comment>"
  | none => renderCodeLine l

/-- The emphasis open/close tag pair chosen from the emStyle setting. -/
def emTags (emStyle : Str) : Str × Str :=
  if emStyle = str "bold" then (str "<b>", str "</b>")
  else (str "<span style=\"color: " ++ emStyle ++ str "\">", str "</span>")

/-- renderCode from main.go: tab normalization, common-indentation removal,
per-line rendering and em-marker substitution. -/
def renderCode (emStyle : Str) (s : Str) : Str :=
  let s := replaceTab s
  let lines := splitOnChar '\n' s
  let lines :=
    match minIndentOf lines with
    | some m => if m > 0 then lines.map (stripIndentLine m) else lines
    | none => lines
  let out := List.intercalate (str "\n") (lines.map renderFullLine)
  let tags := emTags emStyle
  replaceAll (replaceAll out emOpenMark tags.1) emCloseMark tags.2

/-- Literal replacement: wrap every non-overlapping leftmost occurrence of
the non-empty pattern using f, as regexp.ReplaceAllStringFunc does for a
metacharacter-free pattern.  Fuel-based for structural recursion. -/
def literalReplaceGo : Nat → Str → (Str → Str) → Str → Str
  | 0, _, _, s => s
  | fuel + 1, pat, f, s =>
    match s with
    | [] => []
    | c :: cs =>
      if pat.isPrefixOf s ∧ pat ≠ [] then f pat ++ literalReplaceGo fuel pat f (s.drop pat.length)
      else c :: literalReplaceGo fuel pat f cs

/-- A pattern free of regexp metacharacters, which Go regexp matches as a
literal string. -/
def isLiteralPat (p : Str) : Bool :=
  p.all (fun c => c.isAlphanum || c = ' ' || c = ':' || c = '=' || c = '_')

/-- An instance of the external regexp collaborator handling literal
patterns exactly as Go regexp does (leftmost, non-overlapping); every
other pattern is reported as unsupported by this model. -/
def litEngine : EmEngine :=
  ⟨fun p =>
    if p ≠ [] ∧ isLiteralPat p then .ok ⟨fun s f => literalReplaceGo s.length p f s⟩
    else .error (str "unsupported pattern")⟩

/-- A plain code-block body line: it contains no "//" anywhere and is not a
block-comment opener after trimming, hence it is not a directive candidate,
not an em marker line and carries no inline em annotation. -/
def plainCode (l : Str) : Prop :=
  containsStr l (str "//") = false ∧ (str "/*").isPrefixOf (trimSpace l) = false

instance (l : Str) : Decidable (plainCode l) := by unfold plainCode; infer_instance

/-- The input lines of one well-balanced code block (bad variant when the
flag is set). -/
def blockLines (b : Bool × List Str) : List Str :=
  (if b.1 then str "// code bad" else str "// code") :: (b.2 ++ [str "// !code"])

/-- The lines of a body joined by single newlines: the accumulated buffer
minus its final newline. -/
def joinNl : List Str → Str
  | [] => []
  | [l] => l
  | l :: l2 :: ls => l ++ str "\n" ++ joinNl (l2 :: ls)

/-- The section a well-balanced code block should produce. -/
def blockSection (b : Bool × List Str) : Sect :=
  ⟨if b.1 then .codeBad else .code, joinNl b.2⟩

/-- An input that is a sequence of well-balanced code blocks. -/
def blocksInput (bs : List (Bool × List Str)) : List Str := bs.flatMap blockLines

/-- A scanner state with an open section of kind k, used to instantiate the
step-level theorems at concrete inputs. -/
def stOpen (k : SectionKind) : ScanState := ⟨⟨str "h", false, []⟩, [], [], k, []⟩

/-- A scanner state with an open section of kind k and buffered content c. -/
def stOpenBuf (k : SectionKind) (c : Str) : ScanState := ⟨⟨str "h", false, []⟩, [], c, k, []⟩

lemma isPrefixOf_append_self (p t : Str) : p.isPrefixOf (p ++ t) = true :=
  List.isPrefixOf_iff_prefix.2 (List.prefix_append p t)

lemma containsStr_cons (c : Char) (cs pat : Str) :
    containsStr (c :: cs) pat = (pat.isPrefixOf (c :: cs) || containsStr cs pat) := by
  by_cases h : pat.isPrefixOf (c :: cs) = true
  · simp [containsStr, indexOfStr, h]
  · simp only [Bool.not_eq_true] at h
    simp [containsStr, indexOfStr, h]

lemma containsStr_append (a pat b : Str) : containsStr (a ++ (pat ++ b)) pat = true := by
  induction a with
  | nil =>
    show containsStr (pat ++ b) pat = true
    unfold containsStr indexOfStr
    simp [isPrefixOf_append_self]
  | cons c a ih => rw [List.cons_append, containsStr_cons, ih]; simp

lemma exists_of_containsStr : ∀ (s pat : Str), containsStr s pat = true →
    ∃ a b, s = a ++ (pat ++ b) := by
  intro s
  induction s with
  | nil =>
    intro pat h
    cases pat with
    | nil => exact ⟨[], [], rfl⟩
    | cons c cs => simp [containsStr, indexOfStr, List.isPrefixOf] at h
  | cons c cs ih =>
    intro pat h
    rw [containsStr_cons, Bool.or_eq_true] at h
    rcases h with h | h
    · obtain ⟨t, ht⟩ := List.isPrefixOf_iff_prefix.1 h
      exact ⟨[], t, by simp [← ht]⟩
    · obtain ⟨a, b, hab⟩ := ih pat h
      exact ⟨c :: a, b, by simp [hab]⟩

lemma containsStr_monotone {s : Str} (pat q : Str) (h : containsStr s (pat ++ q) = true) :
    containsStr s pat = true := by
  obtain ⟨a, b, hab⟩ := exists_of_containsStr _ _ h
  have : s = a ++ (pat ++ (q ++ b)) := by simp [hab]
  rw [this]
  exact containsStr_append a pat (q ++ b)

lemma containsStr_of_isInfix {s t : Str} (pat : Str) (h : s <:+: t)
    (hc : containsStr s pat = true) : containsStr t pat = true := by
  obtain ⟨u, v, huv⟩ := h
  obtain ⟨a, b, hab⟩ := exists_of_containsStr _ _ hc
  have : t = (u ++ a) ++ (pat ++ (b ++ v)) := by rw [← huv, hab]; simp
  rw [this]
  exact containsStr_append (u ++ a) pat (b ++ v)

lemma trimRightIf_isPrefix (p : Char → Bool) (s : Str) : trimRightIf p s <+: s := by
  have h := List.dropWhile_suffix (l := s.reverse) p
  have h2 : (trimRightIf p s).reverse <:+ s.reverse := by simpa [trimRightIf] using h
  exact List.reverse_suffix.1 h2

lemma trimSpace_isInfix (s : Str) : trimSpace s <:+: s := by
  have h1 : trimSpace s <+: s.dropWhile isSpaceChar := trimRightIf_isPrefix _ _
  have h2 : s.dropWhile isSpaceChar <:+ s := List.dropWhile_suffix _
  exact h1.isInfix.trans h2.isInfix

lemma splitFirstWord_plain {l : Str} (h : plainCode l) : splitFirstWord l = ([], [], false) := by
  obtain ⟨h1, h2⟩ := h
  have hpre : (str "//").isPrefixOf (trimSpace l) = false := by
    cases hc : (str "//").isPrefixOf (trimSpace l) with
    | false => rfl
    | true =>
      obtain ⟨t, ht⟩ := List.isPrefixOf_iff_prefix.1 hc
      have hcon : containsStr (trimSpace l) (str "//") = true := by
        rw [← ht]
        simpa using containsStr_append [] (str "//") t
      have := containsStr_of_isInfix _ (trimSpace_isInfix l) hcon
      rw [h1] at this
      cases this
  simp [splitFirstWord, hpre, h2]

/-- C1: the spec asserts that in every accepted input, an Answer section is
always immediately preceded by a Question section in the same slide, and
the renderer relies on it (its unguarded closing of the disclosure element
makes this the code's own contract).  The scanner violates it: a question
block whose question text is empty when `answer` arrives loses its
Question section (addCurrent skips empty buffers), yet scanning succeeds
and produces a slide whose only section is an Answer. -/
theorem c1_scanner_accepts_orphan_answer :
    scanFile litEngine (str "f.go")
      [str "// question", str "// answer", str "// hi", str "// !question"] =
      .ok [⟨str "f.go", false, [⟨.answer, str "hi\n"⟩]⟩] := by rfl

/-- C2 counterexample: the claim says any opening directive read while a
section is open fails with a nesting error, listing `html` among the
openers; in fact an `html` line inside an open note block is processed
without any open-section check and the scan succeeds. -/
theorem c2_counterexample_html_inside_note :
    scanFile litEngine (str "f.go")
      [str "// note", str "// html <b>hi</b>", str "// !note"] =
      .ok [⟨str "f.go", false, [⟨.html, str "<b>hi</b>"⟩]⟩] := by rfl

/-- C3 counterexample: a well-balanced code block whose body ends in two
blank lines yields a Code section whose content "x\n\n" still ends with a
trailing blank line (its line decomposition is ["x", "", ""]), refuting
the claim that Code content never ends with a trailing blank line: the
scanner removes exactly one trailing newline, not trailing blank lines. -/
theorem c3_counterexample_trailing_blank_line :
    scanFile litEngine (str "f.go") [str "// code", str "x", str "", str "", str "// !code"] =
      .ok [⟨str "f.go", false, [⟨.code, str "x\n\n"⟩]⟩] ∧
    splitOnChar '\n' (str "x\n\n") = [str "x", [], []] :=
  ⟨by rfl, by rfl⟩

/-- C4: the claim (and the repository's own test, which expects
blank-separated note paragraphs as separate Note sections) says a blank
line inside an open non-code section flushes the buffer as a completed
section; the code instead appends an empty line to the buffer, so one note
block with a blank-line-separated second paragraph scans to a single
merged Note section, contradicting the claim and the test. -/
theorem c4_blank_line_merges_paragraphs :
    scanFile litEngine (str "f.go")
      [str "// note", str "// Second note.", str "", str "// Third note.", str "// !note"] =
      .ok [⟨str "f.go", false, [⟨.note, str "Second note.\n\nThird note.\n"⟩]⟩] := by rfl

lemma scanStep_as_dispatch (engine : EmEngine) (st : ScanState) {line first rest : Str} {b : Bool}
    (h : splitFirstWord line = (first, rest, b)) :
    scanStep engine st line = dispatch engine st first rest line := by
  unfold scanStep
  rw [h]

/-- C2, amended: opening one of the kinds the scanner actually checks
(note, code, code bad, text, output, question) while a section is open
fails with an error naming both the attempted kind and the open kind;
html, heading and div lines carry no such check (see the counterexample). -/
theorem c2_open_directive_inside_open_section (engine : EmEngine) (st : ScanState)
    (line rest : Str) (hk : st.kind ≠ .undefined) :
    (splitFirstWord line = (str "code", str "bad", true) →
      scanStep engine st line = .error (str "code bad inside " ++ kindString st.kind)) ∧
    (splitFirstWord line = (str "note", rest, true) →
      scanStep engine st line = .error (str "note inside " ++ kindString st.kind)) ∧
    (splitFirstWord line = (str "code", rest, true) → rest ≠ str "bad" →
      scanStep engine st line = .error (str "code inside " ++ kindString st.kind)) ∧
    (splitFirstWord line = (str "output", rest, true) →
      scanStep engine st line = .error (str "output inside " ++ kindString st.kind)) ∧
    (splitFirstWord line = (str "question", rest, true) →
      scanStep engine st line = .error (str "question inside " ++ kindString st.kind)) ∧
    (splitFirstWord line = (str "text", rest, true) →
      scanStep engine st line = .error (str "text inside " ++ kindString st.kind)) := by
  obtain ⟨sl, sls, cur, k, dv⟩ := st
  refine ⟨?_, ?_, ?_, ?_, ?_, ?_⟩
  · intro h
    rw [scanStep_as_dispatch engine _ h]
    cases k <;> first | rfl | (exact absurd rfl hk)
  · intro h
    rw [scanStep_as_dispatch engine _ h]
    cases k <;> first | rfl | (exact absurd rfl hk)
  · intro h hr
    rw [scanStep_as_dispatch engine _ h]
    unfold dispatch
    rw [if_neg (fun hc => hr hc.2)]
    cases k <;> first | rfl | (exact absurd rfl hk)
  · intro h
    rw [scanStep_as_dispatch engine _ h]
    cases k <;> first | rfl | (exact absurd rfl hk)
  · intro h
    rw [scanStep_as_dispatch engine _ h]
    cases k <;> first | rfl | (exact absurd rfl hk)
  · intro h
    rw [scanStep_as_dispatch engine _ h]
    cases k <;> first | rfl | (exact absurd rfl hk)

/-- C2 witness: the amended nesting errors at concrete inputs: a code bad
opener inside a note, a note opener inside a code block, a text opener
inside a question. -/
theorem c2_open_directive_witness :
    scanStep litEngine (stOpen .note) (str "// code bad") =
      .error (str "code bad inside note") ∧
    scanStep litEngine (stOpen .code) (str "// note") =
      .error (str "note inside code") ∧
    scanStep litEngine (stOpen .question) (str "// text hello") =
      .error (str "text inside question") :=
  ⟨(c2_open_directive_inside_open_section litEngine (stOpen .note) (str "// code bad") []
      (by decide)).1 (by rfl),
   (c2_open_directive_inside_open_section litEngine (stOpen .code) (str "// note") []
      (by decide)).2.1 (by rfl),
   (c2_open_directive_inside_open_section litEngine (stOpen .question) (str "// text hello")
      (str "hello") (by decide)).2.2.2.2.2 (by rfl)⟩

/-- C5: a heading directive finalizes the current slide and starts a new
one exactly when the current slide already has at least one section, and
otherwise only overwrites the in-progress slide's heading; consequently
two headings each followed by a section give two slides in order, and two
consecutive headings collapse into one slide with the later heading. -/
theorem c5_heading_directive (engine : EmEngine) (st : ScanState) (line r : Str)
    (h : splitFirstWord line = (str "heading", r, true)) (hr : r ≠ []) :
    scanStep engine st line =
      .ok (if st.slide.sections = [] then { st with slide := { st.slide with heading := r } }
           else { st with slides := st.slides ++ [st.slide], slide := ⟨r, false, []⟩ }) ∧
    scanFile engine (str "f.go")
      [str "// heading A", str "// text a", str "// heading B", str "// text b"] =
      .ok [⟨str "A", false, [⟨.text, str "a\n"⟩]⟩, ⟨str "B", false, [⟨.text, str "b\n"⟩]⟩] ∧
    scanFile engine (str "f.go") [str "// heading A", str "// heading B", str "// text x"] =
      .ok [⟨str "B", false, [⟨.text, str "x\n"⟩]⟩] := by
  refine ⟨?_, by rfl, by rfl⟩
  obtain ⟨⟨hd, pb, secs⟩, sls, cur, k, dv⟩ := st
  rw [scanStep_as_dispatch engine _ h]
  cases r with
  | nil => exact absurd rfl hr
  | cons a as =>
    cases secs with
    | nil => rw [if_pos rfl]; simp +decide [dispatch, simpleKinds]
    | cons s ss => rw [if_neg (by simp)]; simp +decide [dispatch, simpleKinds]

/-- C5 witness: the heading step at a concrete state with one section
already present finalizes the slide. -/
theorem c5_heading_directive_witness :
    scanStep litEngine ⟨⟨str "h", false, [⟨.text, str "a\n"⟩]⟩, [], [], .undefined, []⟩
      (str "// heading New") =
      .ok ⟨⟨str "New", false, []⟩, [⟨str "h", false, [⟨.text, str "a\n"⟩]⟩], [], .undefined, []⟩ :=
  (c5_heading_directive litEngine ⟨⟨str "h", false, [⟨.text, str "a\n"⟩]⟩, [], [], .undefined, []⟩
    (str "// heading New") (str "New") (by rfl) (by decide)).1

/-- C6: at end of input a still-open section is an "unclosed <kind>
section" error, a still-active div class an "unclosed div with class"
error, and otherwise the final in-progress slide is appended even with
zero sections; the closed conjuncts run the full scanner on an unclosed
note, an unclosed div and an empty input. -/
theorem c6_end_of_input (st : ScanState) (n : Nat) :
    (st.kind ≠ .undefined →
      finishScan st n = .error (n, str "unclosed " ++ kindString st.kind ++ str " section")) ∧
    (st.kind = .undefined → st.divClass ≠ [] →
      finishScan st n = .error (n, str "unclosed div with class " ++ quoteStr st.divClass)) ∧
    (st.kind = .undefined → st.divClass = [] →
      finishScan st n = .ok (st.slides ++ [st.slide])) ∧
    scanFile litEngine (str "f.go") [str "// note", str "// x"] =
      .error ⟨str "f.go", 2, str "unclosed note section"⟩ ∧
    scanFile litEngine (str "f.go") [str "// div.foo"] =
      .error ⟨str "f.go", 1, str "unclosed div with class \"foo\""⟩ ∧
    scanFile litEngine (str "f.go") [] = .ok [⟨str "f.go", false, []⟩] := by
  refine ⟨?_, ?_, ?_, by rfl, by rfl, by rfl⟩
  · intro h
    unfold finishScan
    rw [if_pos h]
  · intro h1 h2
    unfold finishScan
    rw [if_neg (by simp [h1]), if_pos h2]
  · intro h1 h2
    unfold finishScan
    rw [if_neg (by simp [h1]), if_neg (by simp [h2])]

/-- C6 witness: the end-of-input checks applied at concrete states. -/
theorem c6_end_of_input_witness :
    finishScan (stOpen .answer) 7 = .error (7, str "unclosed answer section") ∧
    finishScan ⟨⟨str "h", false, []⟩, [], [], .undefined, str "foo"⟩ 3 =
      .error (3, str "unclosed div with class \"foo\"") ∧
    finishScan ⟨⟨str "h", false, []⟩, [], [], .undefined, []⟩ 3 =
      .ok [⟨str "h", false, []⟩] :=
  ⟨(c6_end_of_input (stOpen .answer) 7).1 (by decide),
   (c6_end_of_input ⟨⟨str "h", false, []⟩, [], [], .undefined, str "foo"⟩ 3).2.1 (by rfl) (by decide),
   (c6_end_of_input ⟨⟨str "h", false, []⟩, [], [], .undefined, []⟩ 3).2.2.1 (by rfl) (by rfl)⟩

lemma indexOfStr_of_isPrefixOf {pat s : Str} (h : pat.isPrefixOf s = true) :
    indexOfStr s pat = some 0 := by
  rw [indexOfStr.eq_def]
  simp [h]

lemma indexOfStr_cons_pos {pat : Str} {c : Char} {cs : Str}
    (h : pat.isPrefixOf (c :: cs) = false) :
    indexOfStr (c :: cs) pat = (indexOfStr cs pat).map (· + 1) := by
  rw [indexOfStr.eq_def]
  simp [h]

lemma isPrefixOf_cons_of_ne {a b : Char} (as bs : Str) (h : b ≠ a) :
    (a :: as).isPrefixOf (b :: bs) = false := by
  rw [List.isPrefixOf_cons₂]
  have hb : (a == b) = false := beq_eq_false_iff_ne.2 (fun hh => h hh.symm)
  simp [hb]

lemma indexOfStr_char (ch : Char) (xs ys : Str) (h : ∀ c ∈ xs, c ≠ ch) :
    indexOfStr (xs ++ ch :: ys) [ch] = some xs.length := by
  induction xs with
  | nil =>
    apply indexOfStr_of_isPrefixOf
    rw [List.nil_append, List.isPrefixOf_cons₂]
    simp
  | cons x xs ih =>
    rw [List.cons_append, indexOfStr_cons_pos (isPrefixOf_cons_of_ne _ _ (h x (by simp))),
      ih (fun c hc => h c (by simp [hc]))]
    simp

lemma indexOfStr_two (c₁ c₂ : Char) (xs ys : Str) (h : ∀ c ∈ xs, c ≠ c₁) :
    indexOfStr (xs ++ c₁ :: c₂ :: ys) [c₁, c₂] = some xs.length := by
  induction xs with
  | nil =>
    apply indexOfStr_of_isPrefixOf
    rw [List.nil_append, List.isPrefixOf_cons₂, List.isPrefixOf_cons₂]
    simp
  | cons x xs ih =>
    rw [List.cons_append, indexOfStr_cons_pos (isPrefixOf_cons_of_ne _ _ (h x (by simp))),
      ih (fun c hc => h c (by simp [hc]))]
    simp

lemma cutDot_bangdiv (c : Str) : cutDot (str "!div." ++ c) = some (str "!div", c) := by
  have e : str "!div." ++ c = str "!div" ++ '.' :: c := rfl
  have e2 : str "." = ['.'] := rfl
  rw [cutDot, e, e2, indexOfStr_char '.' (str "!div") c (by decide)]
  rfl

/-- C7: each closing keyword read while its matching opener is not active
fails with an error naming the mismatch: !code, !note, !text, !output and
!question at the dispatch level, the !div class mismatch at the
div-handling level, and the div.foo / !div.bar example through the whole
scanner. -/
theorem c7_mismatched_closers (engine : EmEngine) (st : ScanState) (line r c : Str) :
    (splitFirstWord line = (str "!code", r, true) → st.kind ≠ .code → st.kind ≠ .codeBad →
      scanStep engine st line = .error (str "!code without matching code")) ∧
    (splitFirstWord line = (str "!note", r, true) → st.kind ≠ .note →
      scanStep engine st line = .error (str "!note without matching note")) ∧
    (splitFirstWord line = (str "!text", r, true) → st.kind ≠ .text →
      scanStep engine st line = .error (str "!text without matching text")) ∧
    (splitFirstWord line = (str "!output", r, true) → st.kind ≠ .output →
      scanStep engine st line = .error (str "output inside " ++ kindString st.kind)) ∧
    (splitFirstWord line = (str "!question", r, true) → st.kind ≠ .question → st.kind ≠ .answer →
      scanStep engine st line = .error (str "!question without matching question")) ∧
    (c ≠ st.divClass →
      divLine engine st (str "!div." ++ c) line = .error
        (str "mismatched div class: start " ++ quoteStr st.divClass ++ str ", end " ++ quoteStr c)) ∧
    scanFile engine (str "f.go") [str "// div.foo", str "// !div.bar"] =
      .error ⟨str "f.go", 2, str "mismatched div class: start \"foo\", end \"bar\""⟩ := by
  obtain ⟨sl, sls, cur, k, dv⟩ := st
  refine ⟨?_, ?_, ?_, ?_, ?_, ?_, by rfl⟩
  · intro h h1 h2
    rw [scanStep_as_dispatch engine _ h]
    cases k <;> first | rfl | (exact absurd rfl h1) | (exact absurd rfl h2)
  · intro h h1
    rw [scanStep_as_dispatch engine _ h]
    cases k <;> first | rfl | (exact absurd rfl h1)
  · intro h h1
    rw [scanStep_as_dispatch engine _ h]
    cases k <;> first | rfl | (exact absurd rfl h1)
  · intro h h1
    rw [scanStep_as_dispatch engine _ h]
    cases k <;> first | rfl | (exact absurd rfl h1)
  · intro h h1 h2
    rw [scanStep_as_dispatch engine _ h]
    cases k <;> first | rfl | (exact absurd rfl h1) | (exact absurd rfl h2)
  · intro hc
    simp only [divLine, cutDot_bangdiv]
    rw [if_neg (by decide)]
    simp [hc]

/-- C7 witness: the mismatch errors at concrete inputs: !code while a note
is open, !note while idle, !div.bar while div class foo is active. -/
theorem c7_mismatched_closers_witness :
    scanStep litEngine (stOpen .note) (str "// !code") =
      .error (str "!code without matching code") ∧
    scanStep litEngine (stOpen .undefined) (str "// !note") =
      .error (str "!note without matching note") ∧
    divLine litEngine ⟨⟨str "h", false, []⟩, [], [], .undefined, str "foo"⟩
      (str "!div." ++ str "bar") (str "// !div.bar") =
      .error (str "mismatched div class: start \"foo\", end \"bar\"") :=
  ⟨(c7_mismatched_closers litEngine (stOpen .note) (str "// !code") [] []).1
      (by rfl) (by decide) (by decide),
   (c7_mismatched_closers litEngine (stOpen .undefined) (str "// !note") [] []).2.1
      (by rfl) (by decide),
   (c7_mismatched_closers litEngine ⟨⟨str "h", false, []⟩, [], [], .undefined, str "foo"⟩
      (str "// !div.bar") [] (str "bar")).2.2.2.2.2.1 (by decide)⟩

/-- C10: closing a code block always appends a Code/CodeBad section, even
with an empty buffer, whereas !note, !text, !output, answer and !question
flush through addCurrent and append nothing when the buffer is empty; the
closed conjuncts run the scanner on an empty code block (one empty Code
section) and an empty note block (no section). -/
theorem c10_close_section_append (engine : EmEngine) (st : ScanState) (line r : Str) :
    (splitFirstWord line = (str "!code", r, true) → (st.kind = .code ∨ st.kind = .codeBad) →
      scanStep engine st line =
        .ok { addSection st st.kind (trimSuffixStr st.current (str "\n")) with
              current := [], kind := .undefined }) ∧
    (st.current = [] →
      (splitFirstWord line = (str "!note", r, true) → st.kind = .note →
        scanStep engine st line = .ok { st with kind := .undefined }) ∧
      (splitFirstWord line = (str "!text", r, true) → st.kind = .text →
        scanStep engine st line = .ok { st with kind := .undefined }) ∧
      (splitFirstWord line = (str "!output", r, true) → st.kind = .output →
        scanStep engine st line = .ok { st with kind := .undefined }) ∧
      (splitFirstWord line = (str "answer", r, true) → st.kind = .question →
        scanStep engine st line = .ok { st with kind := .answer }) ∧
      (splitFirstWord line = (str "!question", r, true) → st.kind = .answer →
        scanStep engine st line = .ok { st with kind := .undefined })) ∧
    scanFile engine (str "f.go") [str "// code", str "// !code"] =
      .ok [⟨str "f.go", false, [⟨.code, []⟩]⟩] ∧
    scanFile engine (str "f.go") [str "// note", str "// !note"] =
      .ok [⟨str "f.go", false, []⟩] := by
  obtain ⟨sl, sls, cur, k, dv⟩ := st
  refine ⟨?_, ?_, by rfl, by rfl⟩
  · intro h hk
    rw [scanStep_as_dispatch engine _ h]
    rcases hk with hk | hk <;> (cases hk; rfl)
  · intro hcur
    cases hcur
    refine ⟨?_, ?_, ?_, ?_, ?_⟩ <;> (intro h hk; rw [scanStep_as_dispatch engine _ h]; cases hk; rfl)

/-- C10 witness: an empty buffer closed by !code still appends a Code
section with empty content, while !note with an empty buffer appends
nothing. -/
theorem c10_close_section_append_witness :
    scanStep litEngine (stOpen .code) (str "// !code") =
      .ok { addSection (stOpen .code) .code [] with current := [], kind := .undefined } ∧
    scanStep litEngine (stOpen .note) (str "// !note") =
      .ok { stOpen .note with kind := .undefined } :=
  ⟨(c10_close_section_append litEngine (stOpen .code) (str "// !code") []).1
      (by rfl) (Or.inl (by rfl)),
   ((c10_close_section_append litEngine (stOpen .note) (str "// !note") []).2.1
      (by rfl)).1 (by rfl) (by rfl)⟩

lemma dispatch_nil (engine : EmEngine) (st : ScanState) (rest line : Str) :
    dispatch engine st [] rest line = bodyLine engine st line := rfl

lemma scanStep_plain (engine : EmEngine) (st : ScanState) {l : Str} (h : plainCode l) :
    scanStep engine st l = bodyLine engine st l := by
  rw [scanStep_as_dispatch engine _ (splitFirstWord_plain h), dispatch_nil]

lemma contains_of_suffix_eq {l t : Str} (h : trimLeftCutset l = t)
    (hc : containsStr t (str "//") = true) : containsStr l (str "//") = true := by
  have hs : t <:+ l := h ▸ List.dropWhile_suffix _
  exact containsStr_of_isInfix _ hs.isInfix hc

lemma bodyLine_code_plain (engine : EmEngine) {st : ScanState} {l : Str}
    (hk : st.kind = .code ∨ st.kind = .codeBad) (h : plainCode l) :
    bodyLine engine st l = .ok { st with current := st.current ++ l ++ str "\n" } := by
  obtain ⟨h1, _⟩ := h
  have hknt : ¬ (l = str "*/" ∧ st.kind = .text) := by
    rintro ⟨-, ht⟩
    rcases hk with hc | hc <;> rw [hc] at ht <;> cases ht
  have hem : ¬ trimLeftCutset l = str "// em" := by
    intro he
    have := contains_of_suffix_eq he (by decide)
    rw [h1] at this
    cases this
  have hbem : ¬ trimLeftCutset l = str "// !em" := by
    intro he
    have := contains_of_suffix_eq he (by decide)
    rw [h1] at this
    cases this
  have hidx : indexOfStr l (str "// em ") = none := by
    cases heq : indexOfStr l (str "// em ") with
    | none => rfl
    | some i =>
      have hc : containsStr l (str "// em ") = true := by rw [containsStr, heq]; rfl
      have e : str "// em " = str "//" ++ str " em " := rfl
      rw [e] at hc
      have := containsStr_monotone _ _ hc
      rw [h1] at this
      cases this
  simp only [bodyLine, if_neg hknt, if_pos hk, hidx]
  rw [if_neg hem, if_neg hbem]

lemma scanLines_cons (engine : EmEngine) (l : Str) (ls : List Str) (n : Nat) (st : ScanState) :
    scanLines engine (l :: ls) n st =
      match scanStep engine st l with
      | .error m => .error (n + 1, m)
      | .ok st' => scanLines engine ls (n + 1) st' := rfl

lemma scanLines_code_body (engine : EmEngine) :
    ∀ (body rest : List Str) (n : Nat) (st : ScanState),
    (st.kind = .code ∨ st.kind = .codeBad) → (∀ l ∈ body, plainCode l) →
    scanLines engine (body ++ rest) n st =
      scanLines engine rest (n + body.length)
        { st with current := st.current ++ body.flatMap (· ++ str "\n") } := by
  intro body
  induction body with
  | nil => intro rest n st _ _; simp
  | cons l body ih =>
    intro rest n st hk hp
    have hpl := hp l (List.mem_cons_self l body)
    rw [List.cons_append, scanLines_cons, scanStep_plain engine st hpl,
      bodyLine_code_plain engine hk hpl]
    dsimp only
    rw [ih rest (n + 1) { st with current := st.current ++ l ++ str "\n" } hk
      (fun x hx => hp x (List.mem_cons_of_mem _ hx))]
    have e1 : n + 1 + body.length = n + (l :: body).length := by
      simp [List.length_cons]
      omega
    have e2 : st.current ++ l ++ str "\n" ++ body.flatMap (· ++ str "\n") =
        st.current ++ (l :: body).flatMap (· ++ str "\n") := by
      simp [List.flatMap_cons, List.append_assoc]
    rw [e1, e2]

lemma scanStep_code_open (engine : EmEngine) (st : ScanState) (hk : st.kind = .undefined) :
    scanStep engine st (str "// code") = .ok { st with kind := .code } := by
  obtain ⟨sl, sls, cur, k, dv⟩ := st
  replace hk : k = .undefined := hk
  subst hk
  rfl

lemma scanStep_codeBad_open (engine : EmEngine) (st : ScanState) (hk : st.kind = .undefined) :
    scanStep engine st (str "// code bad") = .ok { st with kind := .codeBad } := by
  obtain ⟨sl, sls, cur, k, dv⟩ := st
  replace hk : k = .undefined := hk
  subst hk
  rfl

lemma scanStep_code_close (engine : EmEngine) (st : ScanState)
    (hk : st.kind = .code ∨ st.kind = .codeBad) :
    scanStep engine st (str "// !code") =
      .ok { addSection st st.kind (trimSuffixStr st.current (str "\n")) with
            current := [], kind := .undefined } := by
  obtain ⟨sl, sls, cur, k, dv⟩ := st
  rcases hk with hk | hk <;> (replace hk : k = _ := hk; subst hk; rfl)

lemma flatMap_nl_eq : ∀ (l : Str) (ls : List Str),
    ((l :: ls) : List Str).flatMap (· ++ str "\n") = joinNl (l :: ls) ++ str "\n" := by
  intro l ls
  induction ls generalizing l with
  | nil => simp [joinNl]
  | cons l2 ls ih =>
    rw [List.flatMap_cons, ih l2, joinNl]
    simp [List.append_assoc]

lemma trimSuffixStr_append_nl (X : Str) : trimSuffixStr (X ++ str "\n") (str "\n") = X := by
  have e : str "\n" = ['\n'] := rfl
  rw [trimSuffixStr, e]
  have hp : (['\n'] : Str).reverse.isPrefixOf (X ++ ['\n']).reverse = true := by
    rw [List.reverse_append]
    simp [List.isPrefixOf_cons₂]
  rw [if_pos hp]
  have hl : (X ++ ['\n']).length - (['\n'] : Str).length = X.length := by simp
  rw [hl, List.take_left]

lemma trimSuffix_flatMap_nl : ∀ body : List Str,
    trimSuffixStr (body.flatMap (· ++ str "\n")) (str "\n") = joinNl body := by
  intro body
  cases body with
  | nil => rfl
  | cons l ls => rw [flatMap_nl_eq, trimSuffixStr_append_nl]

lemma scanLines_blocks (engine : EmEngine) :
    ∀ (bs : List (Bool × List Str)) (n : Nat) (st : ScanState),
    st.kind = .undefined → st.current = [] →
    (∀ p ∈ bs, ∀ l ∈ p.2, plainCode l) →
    scanLines engine (blocksInput bs) n st =
      .ok { st with slide :=
        { st.slide with sections := st.slide.sections ++ bs.map blockSection } } := by
  intro bs
  induction bs with
  | nil => intro n st _ _ _; simp [blocksInput]; rfl
  | cons p bs ih =>
    obtain ⟨b, body⟩ := p
    intro n st h1 h2 hp
    have hpb : ∀ l ∈ body, plainCode l := hp (b, body) (List.mem_cons_self _ _)
    have e : blocksInput ((b, body) :: bs) =
        ((if b then str "// code bad" else str "// code") ::
          (body ++ (str "// !code" :: blocksInput bs))) := by
      simp [blocksInput, blockLines, List.append_assoc]
    rw [e, scanLines_cons]
    have hopen : scanStep engine st (if b then str "// code bad" else str "// code") =
        .ok { st with kind := if b then .codeBad else .code } := by
      cases b
      · simpa using scanStep_code_open engine st h1
      · simpa using scanStep_codeBad_open engine st h1
    rw [hopen]
    dsimp only
    rw [scanLines_code_body engine body (str "// !code" :: blocksInput bs) (n + 1) _
      (by cases b <;> simp) hpb]
    rw [scanLines_cons, scanStep_code_close engine _ (by cases b <;> simp)]
    dsimp only
    rw [ih _ _ rfl rfl (fun q hq => hp q (List.mem_cons_of_mem _ hq))]
    rw [h2]
    cases b <;>
      simp [addSection, blockSection, trimSuffix_flatMap_nl, List.append_assoc, h1]

/-- C3, amended: for every input that is a sequence of well-balanced
code / !code (or code bad / !code) blocks with plain body lines, scanning
never fails and each pair yields exactly one Code (resp. CodeBad) section
whose content is the enclosed lines joined by single newlines — the
accumulated buffer minus exactly one trailing newline.  The content can
still end with a blank line when the enclosed body does (see the
counterexample): only one newline is trimmed, not trailing blank lines. -/
theorem c3_balanced_code_blocks (engine : EmEngine) (fname : Str)
    (bs : List (Bool × List Str)) (hp : ∀ p ∈ bs, ∀ l ∈ p.2, plainCode l) :
    scanFile engine fname (blocksInput bs) =
      .ok [⟨baseName fname, false, bs.map blockSection⟩] := by
  unfold scanFile
  rw [scanLines_blocks engine bs 0 (initState fname) rfl rfl hp]
  simp [finishScan, initState]

/-- C3 witness: a code block ["a", "b"] and a code bad block ["c"] scan to
one Code section "a\nb" and one CodeBad section "c". -/
theorem c3_balanced_code_blocks_witness :
    scanFile litEngine (str "f.go")
      (blocksInput [(false, [str "a", str "b"]), (true, [str "c"])]) =
      .ok [⟨str "f.go", false, [⟨.code, str "a\nb"⟩, ⟨.codeBad, str "c"⟩]⟩] := by
  rw [c3_balanced_code_blocks litEngine (str "f.go")
    [(false, [str "a", str "b"]), (true, [str "c"])] (by decide)]
  rfl

/-- C8: a code line carrying an inline annotation "// em <regexp>" is split
at the annotation; if the external regexp collaborator rejects the pattern
the scan fails with an error naming the pattern (and scanFile attaches the
line number, as the closed conjunct shows), otherwise the code portion
with trailing whitespace trimmed is passed through the compiled
expression's replace-all (which wraps every match in the zero-width
emphasis markers) and the annotation is discarded; the closed conjuncts
run the pipeline on "x := 1 // em 1", whose rendering emphasizes the
matched "1" with no annotation text left. -/
theorem c8_inline_em (engine : EmEngine) (st : ScanState) (line : Str) (idx : Nat)
    (hk : st.kind = .code ∨ st.kind = .codeBad)
    (hw : splitFirstWord line = ([], [], false))
    (hem : trimLeftCutset line ≠ str "// em")
    (hbem : trimLeftCutset line ≠ str "// !em")
    (hidx : indexOfStr line (str "// em ") = some idx)
    (hpat : trimSpace (line.drop (idx + 6)) ≠ []) :
    (∀ e, engine.compile (trimSpace (line.drop (idx + 6))) = .error e →
      scanStep engine st line = .error
        (str "invalid em regexp " ++ quoteStr (trimSpace (line.drop (idx + 6))) ++
          str ": " ++ e)) ∧
    (∀ re, engine.compile (trimSpace (line.drop (idx + 6))) = .ok re →
      scanStep engine st line = .ok { st with current :=
        (st.current ++ re.replaceAllFunc (trimRightCutset (line.take idx))
          (fun m => emOpenMark ++ m ++ emCloseMark) ++ str "\n") }) ∧
    scanFile litEngine (str "f.go")
      [str "// code", str "x := 1 // em 1", str "// !code"] =
      .ok [⟨str "f.go", false,
        [⟨.code, str "x := " ++ emOpenMark ++ str "1" ++ emCloseMark⟩]⟩] ∧
    renderCode (str "bold") (str "x := " ++ emOpenMark ++ str "1" ++ emCloseMark) =
      str "x := <b>1</b>" ∧
    scanFile litEngine (str "f.go") [str "// code", str "x // em ((("] =
      .error ⟨str "f.go", 2, str "invalid em regexp \"(((\": unsupported pattern"⟩ := by
  have hstep : scanStep engine st line = bodyLine engine st line := by
    rw [scanStep_as_dispatch engine _ hw, dispatch_nil]
  have hknt : ¬ (line = str "*/" ∧ st.kind = .text) := by
    rintro ⟨-, ht⟩
    rcases hk with hc | hc <;> rw [hc] at ht <;> cases ht
  refine ⟨?_, ?_, by rfl, by rfl, by rfl⟩
  · intro e he
    rw [hstep]
    simp only [bodyLine, if_neg hknt, if_pos hk, if_neg hem, if_neg hbem, hidx, if_pos hpat, he]
  · intro re hre
    rw [hstep]
    simp only [bodyLine, if_neg hknt, if_pos hk, if_neg hem, if_neg hbem, hidx, if_pos hpat, hre]

/-- C8 witness: the inline em step at the concrete line "x := 1 // em 1"
with the literal-pattern engine: the annotation is discarded and the match
wrapped in markers. -/
theorem c8_inline_em_witness :
    scanStep litEngine (stOpen .code) (str "x := 1 // em 1") =
      .ok { stOpen SectionKind.code with current :=
        (str "x := " ++ emOpenMark ++ str "1" ++ emCloseMark ++ str "\n") } := by
  have h := (c8_inline_em litEngine (stOpen .code) (str "x := 1 // em 1") 7
    (Or.inl rfl) (by rfl) (by decide) (by decide) (by rfl) (by decide)).2.1
  have h2 := h ⟨fun s f => literalReplaceGo s.length (str "1") f s⟩ (by rfl)
  exact h2.trans (by rfl)

lemma spaceTab_ne_nul {c : Char} (h : isSpaceTab c = true) : c ≠ Char.ofNat 0 := by
  rw [isSpaceTab, Bool.or_eq_true] at h
  rcases h with h | h <;> simp only [decide_eq_true_eq] at h <;> subst h <;> decide

lemma emPrefixSplit_no_marker (c : Char) (cs : Str) (hc : c ≠ Char.ofNat 0) :
    emPrefixSplit (c :: cs) = ([], c :: cs) := by
  have e1 : emOpenMark = Char.ofNat 0 :: ('e' :: 'm' :: [Char.ofNat 0]) := rfl
  have e2 : emCloseMark = Char.ofNat 0 :: ('/' :: 'e' :: 'm' :: [Char.ofNat 0]) := rfl
  rw [emPrefixSplit, e1, e2, isPrefixOf_cons_of_ne _ _ hc, isPrefixOf_cons_of_ne _ _ hc]
  simp

lemma emPrefixSplit_indent (indent : Str) (hind : ∀ c ∈ indent, isSpaceTab c = true)
    (c0 : Char) (h0 : c0 ≠ Char.ofNat 0) (X : Str) :
    emPrefixSplit (indent ++ c0 :: X) = ([], indent ++ c0 :: X) := by
  cases indent with
  | nil => simpa using emPrefixSplit_no_marker c0 X h0
  | cons c cs =>
    rw [List.cons_append]
    exact emPrefixSplit_no_marker c _ (spaceTab_ne_nul (hind c (List.mem_cons_self _ _)))

lemma trimLeftCutset_indent (indent : Str) (hind : ∀ c ∈ indent, isSpaceTab c = true)
    (c : Char) (hc : isSpaceTab c = false) (cs : Str) :
    trimLeftCutset (indent ++ c :: cs) = c :: cs := by
  rw [trimLeftCutset, List.dropWhile_append]
  have h1 : indent.dropWhile isSpaceTab = [] := List.dropWhile_eq_nil_iff.2 hind
  simp [h1, List.dropWhile_cons, hc]

lemma line_take_indent (indent t : Str) :
    (indent ++ t).take ((indent ++ t).length - t.length) = indent := by
  have e : (indent ++ t).length - t.length = indent.length := by simp
  rw [e, List.take_left]

lemma fieldsGo_word (name : Str) (hns : ∀ c ∈ name, isSpaceChar c = false) :
    ∀ (cur rest : Str), fieldsGo cur (name ++ rest) = fieldsGo (name.reverse ++ cur) rest := by
  induction name with
  | nil => intro cur rest; simp
  | cons c name ih =>
    intro cur rest
    rw [List.cons_append, fieldsGo]
    simp only [hns c (List.mem_cons_self _ _), Bool.false_eq_true, if_false]
    rw [ih (fun x hx => hns x (List.mem_cons_of_mem _ hx)) (c :: cur) rest]
    simp [List.append_assoc]

lemma fields_word_head (name rest : Str) (h1 : name ≠ [])
    (h2 : ∀ c ∈ name, isSpaceChar c = false)
    (h3 : rest = [] ∨ ∃ c cs, rest = c :: cs ∧ isSpaceChar c = true) :
    ∃ t, fields (name ++ rest) = name :: t := by
  rw [fields, fieldsGo_word name h2 [] rest]
  rcases h3 with h3 | ⟨c, cs, hrest, hc⟩
  · subst h3
    refine ⟨[], ?_⟩
    rw [fieldsGo]
    simp [h1]
  · subst hrest
    refine ⟨fieldsGo [] cs, ?_⟩
    rw [fieldsGo]
    simp [h1, hc]

lemma trimPrefixStr_append (p t : Str) : trimPrefixStr (p ++ t) p = t := by
  rw [trimPrefixStr, if_pos (isPrefixOf_append_self p t)]
  exact List.drop_left p t

lemma renderCodeLine_type (indent name rest : Str)
    (hind : ∀ c ∈ indent, isSpaceTab c = true)
    (hname : name ≠ []) (hnc : ∀ c ∈ name, isSpaceChar c = false)
    (hrest : rest = [] ∨ ∃ c cs, rest = c :: cs ∧ isSpaceChar c = true) :
    renderCodeLine (indent ++ str "type " ++ name ++ rest) =
      htmlEscape indent ++ str "type <defn>" ++ htmlEscape name ++ str "</defn>" ++
        htmlEscape rest := by
  have assoc : indent ++ str "type " ++ name ++ rest =
      indent ++ ('t' :: (str "ype " ++ (name ++ rest))) := by
    simp only [List.append_assoc]
    rfl
  rw [assoc]
  rw [renderCodeLine]
  rw [emPrefixSplit_indent indent hind 't' (by decide) _]
  dsimp only
  rw [trimLeftCutset_indent indent hind 't' (by decide) _]
  have hdrop : (('t' : Char) :: (str "ype " ++ (name ++ rest))).drop 5 = name ++ rest := by rfl
  have hpre : (str "type ").isPrefixOf ('t' :: (str "ype " ++ (name ++ rest))) = true :=
    isPrefixOf_append_self (str "type ") (name ++ rest)
  obtain ⟨t, hf⟩ := fields_word_head name rest hname hnc hrest
  rw [hdrop, hpre, hf]
  simp only [List.headI]
  rw [if_pos (by simp), line_take_indent indent, trimPrefixStr_append]
  simp [List.append_assoc]

lemma renderCodeLine_func (indent name after : Str)
    (hind : ∀ c ∈ indent, isSpaceTab c = true)
    (hname : name ≠ []) (hnc : ∀ c ∈ name, c ≠ '(') :
    renderCodeLine (indent ++ str "func " ++ name ++ str "(" ++ after) =
      htmlEscape indent ++ str "func <defn>" ++ htmlEscape name ++ str "</defn>" ++
        htmlEscape ('(' :: after) := by
  have assoc : indent ++ str "func " ++ name ++ str "(" ++ after =
      indent ++ ('f' :: (str "unc " ++ (name ++ '(' :: after))) := by
    simp only [List.append_assoc]
    rfl
  rw [assoc, renderCodeLine]
  rw [emPrefixSplit_indent indent hind 'f' (by decide) _]
  dsimp only
  rw [trimLeftCutset_indent indent hind 'f' (by decide) _]
  have hft : (str "type ").isPrefixOf ('f' :: (str "unc " ++ (name ++ '(' :: after))) = false :=
    isPrefixOf_cons_of_ne _ _ (by decide)
  rw [hft, if_neg (by simp)]
  have hfp : (str "func ").isPrefixOf ('f' :: (str "unc " ++ (name ++ '(' :: after))) = true :=
    isPrefixOf_append_self (str "func ") (name ++ '(' :: after)
  rw [hfp, if_pos rfl]
  have hdrop : (('f' : Char) :: (str "unc " ++ (name ++ '(' :: after))).drop 5 =
      name ++ '(' :: after := by rfl
  rw [hdrop]
  have hrfp : renderFuncPart (name ++ '(' :: after) =
      some (str "<defn>" ++ htmlEscape name ++ str "</defn>" ++ htmlEscape ('(' :: after)) := by
    rw [renderFuncPart]
    cases name with
    | nil => exact absurd rfl hname
    | cons c cs =>
      have hp : (str "(").isPrefixOf ((c :: cs) ++ '(' :: after) = false := by
        rw [List.cons_append]
        exact isPrefixOf_cons_of_ne _ _ (hnc c (List.mem_cons_self _ _))
      rw [hp, if_neg (by simp)]
      have e : str "(" = ['('] := rfl
      rw [e, indexOfStr_char '(' (c :: cs) after hnc]
      dsimp only
      rw [List.take_left, List.drop_left]
  rw [hrfp]
  dsimp only
  rw [line_take_indent indent]
  simp only [List.append_assoc]
  rfl

lemma renderCodeLine_method (indent recv name after : Str)
    (hind : ∀ c ∈ indent, isSpaceTab c = true)
    (hname : name ≠ []) (hnc : ∀ c ∈ name, c ≠ '(')
    (hrecv : ∀ c ∈ recv, c ≠ ')') :
    renderCodeLine (indent ++ str "func (" ++ recv ++ str ") " ++ name ++ str "(" ++ after) =
      htmlEscape indent ++ str "func " ++ htmlEscape ('(' :: (recv ++ str ") ")) ++
        str "<defn>" ++ htmlEscape name ++ str "</defn>" ++ htmlEscape ('(' :: after) := by
  have assoc : indent ++ str "func (" ++ recv ++ str ") " ++ name ++ str "(" ++ after =
      indent ++ ('f' :: (str "unc " ++ ('(' :: (recv ++ ')' :: ' ' :: (name ++ '(' :: after))))) := by
    simp only [List.append_assoc]
    rfl
  rw [assoc, renderCodeLine]
  rw [emPrefixSplit_indent indent hind 'f' (by decide) _]
  dsimp only
  rw [trimLeftCutset_indent indent hind 'f' (by decide) _]
  have hft : (str "type ").isPrefixOf
      ('f' :: (str "unc " ++ ('(' :: (recv ++ ')' :: ' ' :: (name ++ '(' :: after))))) = false :=
    isPrefixOf_cons_of_ne _ _ (by decide)
  rw [hft, if_neg (by simp)]
  have hfp : (str "func ").isPrefixOf
      ('f' :: (str "unc " ++ ('(' :: (recv ++ ')' :: ' ' :: (name ++ '(' :: after))))) = true :=
    isPrefixOf_append_self (str "func ") ('(' :: (recv ++ ')' :: ' ' :: (name ++ '(' :: after)))
  rw [hfp, if_pos rfl]
  have hdrop : (('f' : Char) ::
      (str "unc " ++ ('(' :: (recv ++ ')' :: ' ' :: (name ++ '(' :: after))))).drop 5 =
      '(' :: (recv ++ ')' :: ' ' :: (name ++ '(' :: after)) := by rfl
  rw [hdrop]
  have hrfp : renderFuncPart ('(' :: (recv ++ ')' :: ' ' :: (name ++ '(' :: after))) =
      some (htmlEscape (('(' :: recv) ++ [')'] ++ [' ']) ++ str "<defn>" ++ htmlEscape name ++
        str "</defn>" ++ htmlEscape ('(' :: after)) := by
    rw [renderFuncPart]
    have hp : (str "(").isPrefixOf ('(' :: (recv ++ ')' :: ' ' :: (name ++ '(' :: after))) = true := by
      have e : str "(" = ['('] := rfl
      rw [e, List.isPrefixOf_cons₂]
      simp
    rw [hp, if_pos rfl]
    have e2 : str ") " = [')', ' '] := rfl
    have harr : ('(' :: (recv ++ ')' :: ' ' :: (name ++ '(' :: after))) =
        ('(' :: recv) ++ ')' :: ' ' :: (name ++ '(' :: after) := by simp
    rw [e2, harr]
    have hno : ∀ c ∈ '(' :: recv, c ≠ ')' := by
      intro c hc
      rcases List.mem_cons.1 hc with rfl | hm
      · decide
      · exact hrecv c hm
    rw [indexOfStr_two ')' ' ' ('(' :: recv) (name ++ '(' :: after) hno]
    dsimp only
    have htake : (('(' :: recv) ++ ')' :: ' ' :: (name ++ '(' :: after)).take
        (('(' :: recv).length + 1) = ('(' :: recv) ++ [')'] := by
      have harr2 : ('(' :: recv) ++ ')' :: ' ' :: (name ++ '(' :: after) =
          (('(' :: recv) ++ [')']) ++ ' ' :: (name ++ '(' :: after) := by simp
      have hlen : ('(' :: recv).length + 1 = (('(' :: recv) ++ [')']).length := by simp
      rw [harr2, hlen, List.take_left]
    have hdropr : (('(' :: recv) ++ ')' :: ' ' :: (name ++ '(' :: after)).drop
        (('(' :: recv).length + 2) = name ++ '(' :: after := by
      have harr3 : ('(' :: recv) ++ ')' :: ' ' :: (name ++ '(' :: after) =
          (('(' :: recv) ++ [')', ' ']) ++ (name ++ '(' :: after) := by simp
      have hlen : ('(' :: recv).length + 2 = (('(' :: recv) ++ [')', ' ']).length := by simp
      rw [harr3, hlen, List.drop_left]
    rw [htake, hdropr]
    have e3 : str "(" = ['('] := rfl
    cases name with
    | nil => exact absurd rfl hname
    | cons c cs =>
      rw [e3, indexOfStr_char '(' (c :: cs) after hnc]
      dsimp only
      rw [List.take_left, List.drop_left]
      simp only [List.append_assoc]
      rfl
  rw [hrfp]
  dsimp only
  rw [line_take_indent indent]
  simp only [List.append_assoc]
  rfl

/-- C9: for a code line whose code portion is a type declaration
"type NAME ...", a function declaration "func NAME(...)" or a method
declaration "func (RECEIVER) NAME(...)", the Code Renderer wraps exactly
the declared name in the definition style and leaves everything else on
the line — indentation, receiver, parameter list, body — unchanged apart
from HTML escaping. -/
theorem c9_definition_highlighting (indent name recv after rest : Str)
    (hind : ∀ c ∈ indent, isSpaceTab c = true)
    (hname : name ≠ [])
    (hn1 : ∀ c ∈ name, isSpaceChar c = false)
    (hn2 : ∀ c ∈ name, c ≠ '(')
    (hrest : rest = [] ∨ ∃ c cs, rest = c :: cs ∧ isSpaceChar c = true)
    (hrecv : ∀ c ∈ recv, c ≠ ')') :
    renderCodeLine (indent ++ str "type " ++ name ++ rest) =
      htmlEscape indent ++ str "type <defn>" ++ htmlEscape name ++ str "</defn>" ++
        htmlEscape rest ∧
    renderCodeLine (indent ++ str "func " ++ name ++ str "(" ++ after) =
      htmlEscape indent ++ str "func <defn>" ++ htmlEscape name ++ str "</defn>" ++
        htmlEscape ('(' :: after) ∧
    renderCodeLine (indent ++ str "func (" ++ recv ++ str ") " ++ name ++ str "(" ++ after) =
      htmlEscape indent ++ str "func " ++ htmlEscape ('(' :: (recv ++ str ") ")) ++
        str "<defn>" ++ htmlEscape name ++ str "</defn>" ++ htmlEscape ('(' :: after) :=
  ⟨renderCodeLine_type indent name rest hind hname hn1 hrest,
   renderCodeLine_func indent name after hind hname hn2,
   renderCodeLine_method indent recv name after hind hname hn2 hrecv⟩

/-- C9 witness: the spec's concrete examples: "func Foo() \x7b\x7d" and
"type Bar struct\x7b\x7d" render with exactly the declared name wrapped in
the definition style, and a method declaration keeps its receiver. -/
theorem c9_definition_highlighting_witness :
    renderCodeLine (str "func Foo() \x7b\x7d") = str "func <defn>Foo</defn>() \x7b\x7d" ∧
    renderCodeLine (str "type Bar struct\x7b\x7d") =
      str "type <defn>Bar</defn> struct\x7b\x7d" ∧
    renderCodeLine (str "func (f Foo) moo() \x7b\x7d") =
      str "func (f Foo) <defn>moo</defn>() \x7b\x7d" := by
  have h := c9_definition_highlighting [] (str "Foo") (str "f Foo") (str ") \x7b\x7d")
    (str " struct\x7b\x7d") (by simp) (by decide) (by decide) (by decide)
    (Or.inr ⟨' ', str "struct\x7b\x7d", rfl, by decide⟩) (by decide)
  have h2 := c9_definition_highlighting [] (str "Bar") [] [] (str " struct\x7b\x7d")
    (by simp) (by decide) (by decide) (by decide)
    (Or.inr ⟨' ', str "struct\x7b\x7d", rfl, by decide⟩) (by decide)
  have h3 := c9_definition_highlighting [] (str "moo") (str "f Foo") (str ") \x7b\x7d") []
    (by simp) (by decide) (by decide) (by decide) (Or.inl rfl) (by decide)
  exact ⟨h.2.1.trans (by rfl), h2.1.trans (by rfl), h3.2.2.trans (by rfl)⟩

end Code2Slides
